import Mathlib

/-!
Verification development for the AVI container codec (muxer/demuxer pair).
The Go source is shallowly embedded: the sink is a byte list with a write
position, all multi-byte fields are little-endian, machine integers are
natural numbers reduced modulo 2^32 (or 2^16) exactly where the source
performs a uint32 (uint16) conversion or wrapping arithmetic.
-/

/-- Little-endian encoding of the low 32 bits of `n`, exactly as Go's
`binary.Write(w, binary.LittleEndian, uint32(n))` emits them. -/
def u32le (n : Nat) : List Nat :=
  [n % 256, n / 256 % 256, n / 65536 % 256, n / 16777216 % 256]

/-- Little-endian encoding of the low 16 bits of `n`. -/
def u16le (n : Nat) : List Nat :=
  [n % 256, n / 256 % 256]

/-- Go `aviio.FourCC`: the little-endian `uint32` packing of four bytes. -/
def fourCC (a b c d : Nat) : Nat :=
  a + 256 * b + 65536 * c + 16777216 * d

def fccRIFF : Nat := fourCC 82 73 70 70
def fccAVI  : Nat := fourCC 65 86 73 32
def fccLIST : Nat := fourCC 76 73 83 84
def fcchdrl : Nat := fourCC 104 100 114 108
def fccavih : Nat := fourCC 97 118 105 104
def fccstrl : Nat := fourCC 115 116 114 108
def fccstrh : Nat := fourCC 115 116 114 104
def fccstrf : Nat := fourCC 115 116 114 102
def fccmovi : Nat := fourCC 109 111 118 105
def fccidx1 : Nat := fourCC 105 100 120 49
def fccvids : Nat := fourCC 118 105 100 115
def fccauds : Nat := fourCC 97 117 100 115
def fccH264 : Nat := fourCC 72 50 54 52
def fccH265 : Nat := fourCC 72 50 54 53

/-- An 8-byte RIFF chunk header `{FourCC id; u32 size}`. -/
def chunkHeader (id size : Nat) : List Nat := u32le id ++ u32le size

/-- The `uint32` value stored little-endian at byte offset `p` of `d`
(reading out of range yields 0 bytes; guarded uses check bounds first). -/
def readU32val (d : List Nat) (p : Nat) : Nat :=
  d.getD p 0 + 256 * d.getD (p + 1) 0 + 65536 * d.getD (p + 2) 0 +
    16777216 * d.getD (p + 3) 0

/-- Bounds-checked u32 read: `some` value iff 4 bytes are available. -/
def readU32 (d : List Nat) (p : Nat) : Option Nat :=
  if p + 4 ≤ d.length then some (readU32val d p) else none

/-- The `uint16` value stored little-endian at byte offset `p` of `d`. -/
def readU16 (d : List Nat) (p : Nat) : Option Nat :=
  if p + 2 ≤ d.length then some (d.getD p 0 + 256 * d.getD (p + 1) 0) else none

/-- Overwrite the bytes of `d` starting at position `p` with `bs`,
extending at the end (the semantics of a seek-then-write on a file). -/
def writeList (d : List Nat) (p : Nat) (bs : List Nat) : List Nat :=
  d.take p ++ bs ++ d.drop (p + bs.length)

/-- A random-access byte sink: Go's `io.WriteSeeker` over a backing buffer. -/
structure Sink where
  data : List Nat
  pos : Nat
deriving Repr, DecidableEq

/-- `Write` at the current position, advancing it. -/
def Sink.write (s : Sink) (bs : List Nat) : Sink :=
  ⟨writeList s.data s.pos bs, s.pos + bs.length⟩

/-- Go `Muxer.updateUint32At`: save the position, seek to `o`, write the
four bytes of `v`, and restore the position. -/
def updateU32At (s : Sink) (o v : Nat) : Sink :=
  ⟨writeList s.data o (u32le v), s.pos⟩

-- ## Arithmetic and list lemmas about the primitives

theorem u32_decode (n : Nat) :
    n % 256 + 256 * (n / 256 % 256) + 65536 * (n / 65536 % 256) +
      16777216 * (n / 16777216 % 256) = n % 4294967296 := by
  have h1 : n / 65536 = n / 256 / 256 := by
    rw [Nat.div_div_eq_div_mul]
  have h2 : n / 16777216 = n / 65536 / 256 := by
    rw [Nat.div_div_eq_div_mul]
  have h3 : n % 4294967296 = n % (16777216 * 256) := by norm_num
  omega

theorem u32le_length (n : Nat) : (u32le n).length = 4 := rfl

theorem u16le_length (n : Nat) : (u16le n).length = 2 := rfl

theorem chunkHeader_length (id size : Nat) : (chunkHeader id size).length = 8 := rfl

theorem getD_append_left {l l' : List Nat} {n : Nat} (h : n < l.length) :
    (l ++ l').getD n 0 = l.getD n 0 := by
  simp [List.getD, List.getElem?_append_left h]

theorem getD_append_right {l l' : List Nat} {n : Nat} (h : l.length ≤ n) :
    (l ++ l').getD n 0 = l'.getD (n - l.length) 0 := by
  simp [List.getD, List.getElem?_append_right h]

theorem getD_append_at (d l : List Nat) (k : Nat) :
    (d ++ l).getD (d.length + k) 0 = l.getD k 0 := by
  rw [getD_append_right (by omega)]
  congr 1
  omega

theorem getD_take {d : List Nat} {p i : Nat} (h : i < p) :
    (d.take p).getD i 0 = d.getD i 0 := by
  simp [List.getD, List.getElem?_take_of_lt h]

theorem getD_append_self (d l : List Nat) :
    (d ++ l).getD d.length 0 = l.getD 0 0 := by
  have h := getD_append_at d l 0
  simpa using h

theorem getD_drop (d : List Nat) (k j : Nat) :
    (d.drop k).getD j 0 = d.getD (k + j) 0 := by
  simp [List.getD, List.getElem?_drop]

/-- Reads entirely inside `d` are unchanged by appending. -/
theorem readU32_append {d xs : List Nat} {p : Nat} (h : p + 4 ≤ d.length) :
    readU32 (d ++ xs) p = readU32 d p := by
  unfold readU32 readU32val
  rw [List.length_append]
  rw [if_pos (by omega), if_pos h]
  rw [getD_append_left (by omega), getD_append_left (by omega),
    getD_append_left (by omega), getD_append_left (by omega)]

/-- Reading back a `u32le` written at the end of a buffer yields the value
reduced modulo 2^32. -/
theorem readU32_at_end (d rest : List Nat) (n : Nat) :
    readU32 (d ++ (u32le n ++ rest)) d.length = some (n % 4294967296) := by
  unfold readU32 readU32val
  have hlen : (d ++ (u32le n ++ rest)).length = d.length + (4 + rest.length) := by
    simp [u32le]
    omega
  rw [if_pos (by omega)]
  rw [getD_append_at d _ 1, getD_append_at d _ 2, getD_append_at d _ 3,
    getD_append_self d]
  have hb : ∀ i, i < 4 → (u32le n ++ rest).getD i 0 = (u32le n).getD i 0 := by
    intro i hi
    exact getD_append_left (by rw [u32le_length]; omega)
  rw [hb 0 (by omega), hb 1 (by omega), hb 2 (by omega), hb 3 (by omega)]
  simp only [u32le, List.getD]
  norm_num [u32_decode n]

theorem writeList_length {d : List Nat} {p : Nat} (bs : List Nat)
    (h : p + bs.length ≤ d.length) : (writeList d p bs).length = d.length := by
  unfold writeList
  simp only [List.length_append, List.length_take, List.length_drop]
  omega

/-- A byte strictly before the overwritten region is unchanged. -/
theorem writeList_getD_before {d bs : List Nat} {p i : Nat}
    (hp : p ≤ d.length) (h : i < p) :
    (writeList d p bs).getD i 0 = d.getD i 0 := by
  unfold writeList
  have htl : (d.take p).length = p := by simp [List.length_take]; omega
  rw [getD_append_left (by simp only [List.length_append, htl]; omega)]
  rw [getD_append_left (by rw [htl]; omega)]
  exact getD_take h

/-- A byte at or past the end of the overwritten region is unchanged,
provided the write stayed inside the buffer. -/
theorem writeList_getD_after {d bs : List Nat} {p i : Nat}
    (hp : p + bs.length ≤ d.length) (h : p + bs.length ≤ i) :
    (writeList d p bs).getD i 0 = d.getD i 0 := by
  unfold writeList
  have htl : (d.take p ++ bs).length = p + bs.length := by
    simp [List.length_append, List.length_take]
    omega
  rw [getD_append_right (by rw [htl]; omega), htl, getD_drop]
  congr 1
  omega

/-- A u32 read from a region disjoint from (and clear of the end-extension
of) an overwrite is unchanged. -/
theorem readU32_writeList {d bs : List Nat} {p q : Nat}
    (hp : p + bs.length ≤ d.length) (hdisj : q + 4 ≤ p ∨ p + bs.length ≤ q) :
    readU32 (writeList d p bs) q = readU32 d q := by
  unfold readU32 readU32val
  rw [writeList_length bs hp]
  rcases Nat.lt_or_ge (q + 4) (d.length + 1) with hq | hq
  · rw [if_pos (by omega), if_pos (by omega)]
    rcases hdisj with h | h
    · rw [writeList_getD_before (by omega) (by omega),
        writeList_getD_before (by omega) (by omega),
        writeList_getD_before (by omega) (by omega),
        writeList_getD_before (by omega) (by omega)]
    · rw [writeList_getD_after hp (by omega), writeList_getD_after hp (by omega),
        writeList_getD_after hp (by omega), writeList_getD_after hp (by omega)]
  · rw [if_neg (by omega), if_neg (by omega)]

/-- Reading back a patched u32 yields the patched value modulo 2^32. -/
theorem readU32_writeList_at {d : List Nat} {o : Nat} (v : Nat)
    (h : o + 4 ≤ d.length) :
    readU32 (writeList d o (u32le v)) o = some (v % 4294967296) := by
  have hsplit : writeList d o (u32le v) = d.take o ++ (u32le v ++ d.drop (o + 4)) := by
    unfold writeList
    simp [u32le]
  have htl : (d.take o).length = o := by simp [List.length_take]; omega
  have hr := readU32_at_end (d.take o) (d.drop (o + 4)) v
  rw [htl] at hr
  rw [hsplit]
  exact hr

/-- A `Sink.write` with the position at the end of the data is an append. -/
theorem sinkWrite_append (s : Sink) (bs : List Nat) (h : s.pos = s.data.length) :
    s.write bs = ⟨s.data ++ bs, s.pos + bs.length⟩ := by
  unfold Sink.write writeList
  rw [h]
  simp

-- ## Muxer embedding (src/format/avi/muxer.go)

/-- The codec kinds the AVI core supports (spec section 1 / `Handler`). -/
inductive CodecTypeM
  | h264
  | h265
  | aac
  | pcmMulaw
  | pcmAlaw
deriving Repr, DecidableEq

def CodecTypeM.isVideoT : CodecTypeM → Bool
  | .h264 => true
  | .h265 => true
  | _ => false

def CodecTypeM.isAudioT : CodecTypeM → Bool
  | .aac => true
  | .pcmMulaw => true
  | .pcmAlaw => true
  | _ => false

/-- A generic stream descriptor, the opaque `av.CodecData` of the source:
the accessors the muxer reads. `spsInfo = some (w, h, fps)` models an H264
descriptor whose SPS is non-empty and parses (`h264parser.ParseSPS` ok);
`extradata` models `AVCDecoderConfRecordBytes` / `MPEG4AudioConfigBytes`. -/
structure StreamDesc where
  ctype : CodecTypeM
  spsInfo : Option (Nat × Nat × Nat) := none
  sampleRate : Nat := 0
  channels : Nat := 0
  extradata : List Nat := []
deriving Repr, DecidableEq

instance : Inhabited StreamDesc := ⟨{ ctype := .h264 }⟩

/-- `aviio.IndexEntry` as accumulated by the muxer (field values are the
`uint32`s the source stores). -/
structure IndexEntryM where
  chunkID : Nat
  flags : Nat
  offset : Nat
  size : Nat
deriving Repr, DecidableEq

instance : Inhabited IndexEntryM := ⟨⟨0, 0, 0, 0⟩⟩

/-- The `Muxer` struct of the source. -/
structure Muxer where
  sink : Sink
  descs : List StreamDesc
  videoStreamIdx : Int
  audioStreamIdx : Int
  hasVideo : Bool
  hasAudio : Bool
  frameCount : Nat
  indexEntries : List IndexEntryM
  moviListPos : Nat
  headerPos : Nat
  dataSize : Nat
  fps : Nat
  width : Nat
  height : Nat
  audioSampleRate : Nat
deriving Repr, DecidableEq

/-- The index origin: the byte after the `movi` FourCC,
`moviListPos + 8 (LIST header) + 4 ('movi')`. -/
def Muxer.moviDataPos (m : Muxer) : Nat := m.moviListPos + 12

/-- Accumulator of `WriteHeader`'s stream-identification loop. -/
structure ScanAcc where
  videoStreamIdx : Int := -1
  audioStreamIdx : Int := -1
  hasVideo : Bool := false
  hasAudio : Bool := false
  fps : Nat := 0
  width : Nat := 0
  height : Nat := 0
  audioSampleRate : Nat := 0
deriving Repr, DecidableEq

/-- One iteration of the loop in `WriteHeader`: record the stream kind at
index `i` and extract the codec parameters, exactly as the source's
`switch cd.Type()`.  For H264 the parameters are taken only when the SPS
is present and parses; H265 always installs the 1920x1080 @ 25 defaults;
G.711 installs the 8000 Hz default rate. -/
def scanStep (i : Nat) (acc : ScanAcc) (d : StreamDesc) : ScanAcc :=
  match d.ctype with
  | .h264 =>
      let acc := { acc with videoStreamIdx := (i : Int), hasVideo := true }
      match d.spsInfo with
      | some wh => { acc with width := wh.1 % 4294967296, height := wh.2.1 % 4294967296,
                              fps := wh.2.2 }
      | none => acc
  | .h265 => { acc with videoStreamIdx := (i : Int), hasVideo := true,
                        width := 1920, height := 1080, fps := 25 }
  | .aac => { acc with audioStreamIdx := (i : Int), hasAudio := true,
                       audioSampleRate := d.sampleRate % 4294967296 }
  | .pcmMulaw => { acc with audioStreamIdx := (i : Int), hasAudio := true,
                            audioSampleRate := 8000 }
  | .pcmAlaw => { acc with audioStreamIdx := (i : Int), hasAudio := true,
                           audioSampleRate := 8000 }

def scanDescs : Nat → ScanAcc → List StreamDesc → ScanAcc
  | _, acc, [] => acc
  | i, acc, d :: ds => scanDescs (i + 1) (scanStep i acc d) ds

/-- `writeMainHeader`: the `avih` chunk (header + 56-byte `MainAVIHeader`).
Fields in source order; `flags = 0x10` (HASINDEX), `totalFrames = 0`
placeholder, `streams = len(codecData)`. -/
def mainHeaderBytes (fps width height nstreams : Nat) : List Nat :=
  chunkHeader fccavih 56 ++
  u32le (1000000 / fps) ++ u32le 0 ++ u32le 0 ++ u32le 16 ++ u32le 0 ++
  u32le 0 ++ u32le nstreams ++ u32le 1048576 ++ u32le width ++ u32le height ++
  u32le 0 ++ u32le 0 ++ u32le 0 ++ u32le 0

/-- The 56-byte `aviio.StreamHeader` in binary field order. -/
def streamHeaderBytes (ty handler scale rate sugBuf quality : Nat)
    (frame : List Nat) : List Nat :=
  u32le ty ++ u32le handler ++ u32le 0 ++ u16le 0 ++ u16le 0 ++
  u32le 0 ++ u32le scale ++ u32le rate ++ u32le 0 ++ u32le 0 ++
  u32le sugBuf ++ u32le quality ++ u32le 0 ++ frame

/-- Video codec handler FourCC (`writeVideoStreamHeader`). -/
def videoHandler : CodecTypeM → Nat
  | .h264 => fccH264
  | .h265 => fccH265
  | _ => 0

/-- `writeVideoFormat`: the `strf` chunk with the 40-byte
`BitmapInfoHeader` followed by the codec extradata (no padding). -/
def videoStrfBytes (width height : Nat) (ct : CodecTypeM) (extra : List Nat) :
    List Nat :=
  chunkHeader fccstrf (40 + extra.length) ++
  (u32le 40 ++ u32le width ++ u32le height ++ u16le 1 ++ u16le 24 ++
   u32le (videoHandler ct) ++ u32le (width * height * 3) ++
   u32le 0 ++ u32le 0 ++ u32le 0 ++ u32le 0) ++
  extra

/-- `writeVideoStreamHeader` body: `strh` + `strf`. -/
def videoStreamBytes (fps width height : Nat) (d : StreamDesc) : List Nat :=
  chunkHeader fccstrh 56 ++
  streamHeaderBytes fccvids (videoHandler d.ctype) 1 fps 1048576 10000
    (u16le 0 ++ u16le 0 ++ u16le width ++ u16le height) ++
  videoStrfBytes width height d.ctype d.extradata

/-- The `WaveFormatEx` the source builds in `writeAudioFormat`. -/
structure WaveFormatExM where
  formatTag : Nat
  channels : Nat
  samplesPerSec : Nat
  avgBytesPerSec : Nat
  blockAlign : Nat
  bitsPerSample : Nat
  cbSize : Nat
deriving Repr, DecidableEq

/-- `writeAudioFormat`'s computation of the `WaveFormatEx` fields and the
extradata, faithful to the source: channels default to 2 ("Stereo by
default") and bits-per-sample to 16; the G.711 cases set neither the
channel count nor any extradata.  `blockAlign` and `avgBytesPerSec` use
Go's wrapping `uint16`/`uint32` arithmetic. -/
def wfxFor (muxAudioRate : Nat) (d : StreamDesc) : WaveFormatExM × List Nat :=
  let base : Nat × Nat × Nat × Nat × List Nat :=
    match d.ctype with
    | .aac => (255, d.sampleRate % 4294967296, d.channels % 65536, 16, d.extradata)
    | .pcmMulaw => (7, muxAudioRate, 2, 8, [])
    | .pcmAlaw => (6, muxAudioRate, 2, 8, [])
    | _ => (0, 0, 2, 16, [])
  let tag := base.1
  let sps := base.2.1
  let ch := base.2.2.1
  let bits := base.2.2.2.1
  let extra := base.2.2.2.2
  let ba := ch * bits % 65536 / 8
  let avg := sps * ba % 4294967296
  (⟨tag, ch, sps, avg, ba, bits, extra.length % 65536⟩, extra)

def wfxBytes (w : WaveFormatExM) : List Nat :=
  u16le w.formatTag ++ u16le w.channels ++ u32le w.samplesPerSec ++
  u32le w.avgBytesPerSec ++ u16le w.blockAlign ++ u16le w.bitsPerSample ++
  u16le w.cbSize

/-- `writeAudioFormat`: the `strf` chunk with the 18-byte `WaveFormatEx`
followed by the extradata (no padding). -/
def audioStrfBytes (muxAudioRate : Nat) (d : StreamDesc) : List Nat :=
  let we := wfxFor muxAudioRate d
  chunkHeader fccstrf (18 + we.2.length) ++ wfxBytes we.1 ++ we.2

/-- `writeAudioStreamHeader` body: `strh` + `strf`. -/
def audioStreamBytes (muxAudioRate : Nat) (d : StreamDesc) : List Nat :=
  chunkHeader fccstrh 56 ++
  streamHeaderBytes fccauds 0 1 muxAudioRate 65536 10000
    (u16le 0 ++ u16le 0 ++ u16le 0 ++ u16le 0) ++
  audioStrfBytes muxAudioRate d

/-- `writeStreamHeaders`: the inner buffer is wrapped in a `LIST 'strl'`. -/
def strlBytes (inner : List Nat) : List Nat :=
  chunkHeader fccLIST (inner.length + 4) ++ u32le fccstrl ++ inner

/-- The `hdrl` buffer built in `writeHeaderList`: main header, then the
video stream list (if any), then the audio stream list (if any). -/
def hdrlBufBytes (fps width height audioSampleRate : Nat)
    (descs : List StreamDesc) (videoIdx audioIdx : Int)
    (hasVideo hasAudio : Bool) : List Nat :=
  mainHeaderBytes fps width height descs.length ++
  (if hasVideo then strlBytes (videoStreamBytes fps width height
      (descs.getD videoIdx.toNat default)) else []) ++
  (if hasAudio then strlBytes (audioStreamBytes audioSampleRate
      (descs.getD audioIdx.toNat default)) else [])

/-- `WriteHeader` followed by `writeFileHeaders` (both are total given a
sink that accepts every write; the Go function's only error sources are
sink failures).  Returns the muxer after all header bytes are emitted. -/
def writeHeaderM (s : Sink) (descs : List StreamDesc) : Muxer :=
  let acc := scanDescs 0 {} descs
  let fps := if acc.fps = 0 then 25 else acc.fps
  let hb := hdrlBufBytes fps acc.width acc.height acc.audioSampleRate descs
    acc.videoStreamIdx acc.audioStreamIdx acc.hasVideo acc.hasAudio
  let hp := s.pos
  let s1 := s.write (chunkHeader fccRIFF 0)
  let s2 := s1.write (u32le fccAVI)
  let s3 := s2.write (chunkHeader fccLIST (hb.length + 4))
  let s4 := s3.write (u32le fcchdrl)
  let s5 := s4.write hb
  let mlp := s5.pos
  let s6 := s5.write (chunkHeader fccLIST 0)
  let s7 := s6.write (u32le fccmovi)
  { sink := s7, descs := descs,
    videoStreamIdx := acc.videoStreamIdx, audioStreamIdx := acc.audioStreamIdx,
    hasVideo := acc.hasVideo, hasAudio := acc.hasAudio,
    frameCount := 0, indexEntries := [], moviListPos := mlp, headerPos := hp,
    dataSize := 0, fps := fps, width := acc.width, height := acc.height,
    audioSampleRate := acc.audioSampleRate }

/-- The `error`-returning surface of `WriteHeader` (it has no validation:
its only failure paths are sink errors, absent in the model). -/
def writeHeader (s : Sink) (descs : List StreamDesc) : Except String Muxer :=
  Except.ok (writeHeaderM s descs)

/-- `av.Packet` as consumed by `WritePacket` (`Idx` is an `int8`). -/
structure PacketM where
  idx : Int
  isKeyFrame : Bool
  data : List Nat
deriving Repr, DecidableEq

/-- The chunk ID `fmt.Sprintf("%02d" ++ suffix, streamNum)` packed by
`aviio.FourCC`.  Faithful for `-9 ≤ sn ≤ 99`, the range where the
formatted string has exactly four characters (outside it the Go code
panics inside `FourCC`); reachable stream numbers satisfy it. -/
def mkChunkID (sn : Int) (k1 k2 : Nat) : Nat :=
  if 0 ≤ sn then fourCC (48 + sn.toNat / 10) (48 + sn.toNat % 10) k1 k2
  else fourCC 45 (48 + (-sn).toNat) k1 k2

/-- The body of `WritePacket` after the stream-index dispatch: record the
index entry (offset taken relative to `moviListPos + 12` before the chunk
header is written), emit header, payload and the odd-length pad byte,
bump `dataSize` and, for the video stream, `frameCount`. -/
def writePacketChunk (m : Muxer) (pkt : PacketM) (chunkID : Nat)
    (isVideoPkt : Bool) : Muxer :=
  let p := m.sink.pos
  let e : IndexEntryM :=
    { chunkID := chunkID,
      flags := if pkt.isKeyFrame then 16 else 0,
      offset := (p - m.moviListPos - 12) % 4294967296,
      size := pkt.data.length % 4294967296 }
  let s1 := m.sink.write (chunkHeader chunkID pkt.data.length)
  let s2 := s1.write pkt.data
  let s3 := if pkt.data.length % 2 = 1 then s2.write [0] else s2
  let pad := if pkt.data.length % 2 = 1 then 1 else 0
  { m with sink := s3,
           indexEntries := m.indexEntries ++ [e],
           dataSize := m.dataSize + 8 + pkt.data.length + pad,
           frameCount := if isVideoPkt then m.frameCount + 1 else m.frameCount }

/-- `Muxer.WritePacket`: dispatch on the declared stream indices; a packet
for any other index fails with the "invalid stream index" error before
anything is written or recorded. -/
def writePacket (m : Muxer) (pkt : PacketM) : Except String Muxer :=
  if pkt.idx = m.videoStreamIdx then
    Except.ok (writePacketChunk m pkt (mkChunkID pkt.idx 100 99) true)
  else if pkt.idx = m.audioStreamIdx then
    Except.ok (writePacketChunk m pkt (mkChunkID pkt.idx 119 98) false)
  else
    Except.error "invalid stream index"

/-- The state after one `WritePacket` call: the new muxer on success, the
old one on failure (the Go function returns before any mutation). -/
def writePacketStep (m : Muxer) (p : PacketM) : Muxer :=
  match writePacket m p with
  | Except.ok m2 => m2
  | Except.error _ => m

/-- A sequence of `WritePacket` calls; a failed call leaves the muxer
untouched and the caller proceeds with the next packet. -/
def writePackets (m : Muxer) : List PacketM → Muxer
  | [] => m
  | p :: ps => writePackets (writePacketStep m p) ps

/-- `writeIndex`'s serialization of the accumulated entries. -/
def indexEntriesBytes : List IndexEntryM → List Nat
  | [] => []
  | e :: es => (u32le e.chunkID ++ u32le e.flags ++ u32le e.offset ++
      u32le e.size) ++ indexEntriesBytes es

/-- `Muxer.WriteTrailer`: append the `idx1` chunk, then patch the RIFF
size at absolute offset 4, the `movi` LIST size at `moviListPos + 4`, and
the frame count at `headerPos + 48`, each patch restoring the position. -/
def writeTrailer (m : Muxer) : Muxer :=
  let s1 := m.sink.write (chunkHeader fccidx1 (16 * m.indexEntries.length))
  let s2 := s1.write (indexEntriesBytes m.indexEntries)
  let currentPos := s2.pos
  let s3 := updateU32At s2 4 (currentPos - 8)
  let s4 := updateU32At s3 (m.moviListPos + 4) (m.dataSize + 4)
  let s5 := updateU32At s4 (m.headerPos + 48) m.frameCount
  { m with sink := s5 }

/-- A complete muxer run: header, packets, trailer, starting from a sink
whose position is at the end of its (possibly non-empty) initial bytes. -/
def muxRun (init : List Nat) (descs : List StreamDesc) (pkts : List PacketM) :
    Muxer :=
  writeTrailer (writePackets (writeHeaderM ⟨init, init.length⟩ descs) pkts)

-- ## Demuxer embedding (src/format/avi/demuxer.go, ReadPacket path)

/-- The per-stream data `ReadPacket` consults: the kind flags and the
`strh` scale/rate pair (`streamInfo` of the source). -/
structure StreamInfoM where
  isVideo : Bool
  isAudio : Bool
  scale : Nat
  rate : Nat
deriving Repr, DecidableEq

instance : Inhabited StreamInfoM := ⟨⟨false, false, 0, 0⟩⟩

/-- The `Demuxer` state `ReadPacket` uses: the underlying bytes, the
`movi` data origin recorded by `parseHeaders`, the stream table, the
loaded `idx1` entries, and the global `currentFrame` cursor. -/
structure DemuxState where
  file : List Nat
  moviOffset : Nat
  streamInfos : List StreamInfoM
  indexEntries : List IndexEntryM
  currentFrame : Nat
deriving Repr, DecidableEq

/-- The kind test of `ReadPacket`'s resolution loop:
`(isVideo ∧ suffix = "dc") ∨ (isVideo ∧ suffix = "db") ∨ (isAudio ∧ suffix = "wb")`
('d' = 100, 'c' = 99, 'b' = 98, 'w' = 119). -/
def kindMatches (info : StreamInfoM) (b2 b3 : Nat) : Bool :=
  (info.isVideo && b2 = 100 && b3 = 99) || (info.isVideo && b2 = 100 && b3 = 98) ||
    (info.isAudio && b2 = 119 && b3 = 98)

/-- The loop `for i, info := range d.streamInfos { ... }`: the first index
whose kind matches the suffix and equals the decoded stream number; when
no iteration hits, the loop leaves `streamIdx` at its zero value — the
caller then uses stream 0 (this is `none` here). -/
def resolveFrom (streamNum b2 b3 : Nat) : Nat → List StreamInfoM → Option Nat
  | _, [] => none
  | i, info :: rest =>
      if kindMatches info b2 b3 && streamNum = i then some i
      else resolveFrom streamNum b2 b3 (i + 1) rest

def resolveStream (infos : List StreamInfoM) (streamNum b2 b3 : Nat) :
    Option Nat :=
  resolveFrom streamNum b2 b3 0 infos

/-- Byte `i` of a FourCC value (little-endian). -/
def fccByte (id i : Nat) : Nat := id / 256 ^ i % 256

/-- `int(chunkIDStr[0]-'0')*10 + int(chunkIDStr[1]-'0')` — Go byte
subtraction wraps modulo 256 before widening to `int`. -/
def streamNumOf (id : Nat) : Nat :=
  (fccByte id 0 + 208) % 256 * 10 + (fccByte id 1 + 208) % 256

/-- The timestamp computation of `ReadPacket`, in nanoseconds, using the
single global frame number.  Video uses
`float64(frameNumber) * 1e9 / (Rate/Scale)`; the model's
`fn * 1e9 * scale / rate` agrees wherever the float64 arithmetic is exact
(all inputs used here).  Audio is pure int64 arithmetic:
`Duration(frameNumber) * Second / Duration(rate)`. -/
def packetTimeNs (info : StreamInfoM) (frameNumber : Nat) : Nat :=
  if info.isVideo then
    if 0 < info.rate ∧ 0 < info.scale then
      frameNumber * 1000000000 * info.scale / info.rate
    else 0
  else if info.isAudio then
    if 0 < info.rate then frameNumber * 1000000000 / info.rate else 0
  else 0

/-- The packet `ReadPacket` returns (`av.Packet`). -/
structure PacketOut where
  idx : Nat
  isKeyFrame : Bool
  timeNs : Nat
  data : List Nat
deriving Repr, DecidableEq

/-- `Demuxer.ReadPacket`: end-of-stream on an exhausted cursor; fetch the
entry at the global cursor and post-increment; decode the stream number
from the chunk ID; run the resolution loop (defaulting to stream 0 with
`isKeyFrame = false` when it finds nothing); compute the timestamp from
the global frame number; seek to `moviOffset + entry.offset`, read and
verify the 8-byte chunk header, and read the payload whose length the
header declares.  (With an empty stream table the Go code would panic at
`d.streamInfos[streamIdx]`; the model's default-valued lookup is only
exercised on non-empty tables.) -/
def readPacket (d : DemuxState) : Except String (PacketOut × DemuxState) :=
  if d.currentFrame < d.indexEntries.length then
    let e := d.indexEntries.getD d.currentFrame default
    let frameNumber := d.currentFrame
    let d2 := { d with currentFrame := d.currentFrame + 1 }
    let b2 := fccByte e.chunkID 2
    let b3 := fccByte e.chunkID 3
    let resolved := resolveStream d.streamInfos (streamNumOf e.chunkID) b2 b3
    let streamIdx := resolved.getD 0
    let isKey := match resolved with
      | some _ => e.flags / 16 % 2 = 1
      | none => false
    let info := d.streamInfos.getD streamIdx default
    let ts := packetTimeNs info frameNumber
    let off := d.moviOffset + e.offset
    if off + 8 ≤ d.file.length then
      let rid := readU32val d.file off
      let rsize := readU32val d.file (off + 4)
      if rid = e.chunkID then
        if off + 8 + rsize ≤ d.file.length then
          Except.ok ({ idx := streamIdx, isKeyFrame := isKey, timeNs := ts,
                       data := (d.file.drop (off + 8)).take rsize }, d2)
        else Except.error "unexpected EOF"
      else Except.error "chunk ID mismatch"
    else Except.error "unexpected EOF"
  else Except.error "EOF"

-- ## Muxer run invariants

/-- An index entry is readable back from the file: the 8-byte chunk header
at `moviDataPos + offset` carries the entry's chunk ID and size, and the
declared payload lies inside the file — exactly the checks and reads the
demuxer's `ReadPacket` performs on the entry. -/
def entryGood (d : List Nat) (mdp : Nat) (e : IndexEntryM) : Prop :=
  readU32 d (mdp + e.offset) = some (e.chunkID % 4294967296) ∧
  readU32 d (mdp + e.offset + 4) = some e.size ∧
  mdp + e.offset + 8 + e.size ≤ d.length

/-- The run invariant of the muxer between `WriteHeader` and
`WriteTrailer`. -/
def MuxInv (m : Muxer) : Prop :=
  m.sink.pos = m.sink.data.length ∧
  m.headerPos + 88 ≤ m.moviListPos ∧
  m.moviListPos + 12 ≤ m.sink.data.length ∧
  ((-1 : Int) ≤ m.videoStreamIdx ∧ m.videoStreamIdx < (m.descs.length : Int)) ∧
  ((-1 : Int) ≤ m.audioStreamIdx ∧ m.audioStreamIdx < (m.descs.length : Int)) ∧
  (m.descs.length ≤ 100 → ∀ e ∈ m.indexEntries, e.chunkID < 4294967296) ∧
  (m.sink.data.length < 4294967296 →
    ∀ e ∈ m.indexEntries, entryGood m.sink.data m.moviDataPos e)

theorem write_append (s : Sink) (bs : List Nat) (h : s.pos = s.data.length) :
    (s.write bs).data = s.data ++ bs ∧
      (s.write bs).pos = (s.write bs).data.length := by
  unfold Sink.write writeList
  rw [h]
  constructor <;> simp

theorem mkChunkID_lt (sn : Int) (k1 k2 : Nat) (h1 : -1 ≤ sn) (h2 : sn < 100)
    (hk1 : k1 < 256) (hk2 : k2 < 256) : mkChunkID sn k1 k2 < 4294967296 := by
  unfold mkChunkID fourCC
  split
  · omega
  · omega

theorem scanStep_vbound (i : Nat) (acc : ScanAcc) (d : StreamDesc) :
    ((scanStep i acc d).videoStreamIdx = acc.videoStreamIdx ∨
      (scanStep i acc d).videoStreamIdx = (i : Int)) ∧
    ((scanStep i acc d).audioStreamIdx = acc.audioStreamIdx ∨
      (scanStep i acc d).audioStreamIdx = (i : Int)) := by
  unfold scanStep
  rcases hct : d.ctype <;> simp only []
  · rcases d.spsInfo <;> simp
  · simp
  · simp
  · simp
  · simp

theorem scanDescs_bound (ds : List StreamDesc) : ∀ (i : Nat) (acc : ScanAcc),
    -1 ≤ acc.videoStreamIdx → acc.videoStreamIdx < (i : Int) →
    -1 ≤ acc.audioStreamIdx → acc.audioStreamIdx < (i : Int) →
    (-1 ≤ (scanDescs i acc ds).videoStreamIdx ∧
      (scanDescs i acc ds).videoStreamIdx < (i : Int) + ds.length ∧
      -1 ≤ (scanDescs i acc ds).audioStreamIdx ∧
      (scanDescs i acc ds).audioStreamIdx < (i : Int) + ds.length) := by
  induction ds with
  | nil =>
      intro i acc h1 h2 h3 h4
      simp [scanDescs]
      omega
  | cons d ds ih =>
      intro i acc h1 h2 h3 h4
      have hs := scanStep_vbound i acc d
      have hnext := ih (i + 1) (scanStep i acc d)
        (by rcases hs.1 with h | h <;> omega)
        (by rcases hs.1 with h | h <;> (rw [h]; push_cast; omega))
        (by rcases hs.2 with h | h <;> omega)
        (by rcases hs.2 with h | h <;> (rw [h]; push_cast; omega))
      simp only [scanDescs, List.length_cons]
      push_cast at hnext ⊢
      omega

theorem mainHeaderBytes_length (fps width height nstreams : Nat) :
    (mainHeaderBytes fps width height nstreams).length = 64 := by
  simp [mainHeaderBytes, chunkHeader, u32le]

theorem hdrlBufBytes_length_ge (fps width height asr : Nat)
    (descs : List StreamDesc) (vi ai : Int) (hv ha : Bool) :
    64 ≤ (hdrlBufBytes fps width height asr descs vi ai hv ha).length := by
  unfold hdrlBufBytes
  simp only [List.length_append, mainHeaderBytes_length]
  omega


/-- The `hdrl` buffer `writeHeaderM` builds for a given descriptor list. -/
def hdrlBufOf (descs : List StreamDesc) : List Nat :=
  let acc := scanDescs 0 {} descs
  let fps := if acc.fps = 0 then 25 else acc.fps
  hdrlBufBytes fps acc.width acc.height acc.audioSampleRate descs
    acc.videoStreamIdx acc.audioStreamIdx acc.hasVideo acc.hasAudio

/-- The byte stream `writeFileHeaders` appends to the sink, as one list
(used to characterize `writeHeaderM`'s sink contents). -/
def headerBytes (descs : List StreamDesc) : List Nat :=
  let hb := hdrlBufOf descs
  chunkHeader fccRIFF 0 ++ u32le fccAVI ++ chunkHeader fccLIST (hb.length + 4) ++
    u32le fcchdrl ++ hb ++ chunkHeader fccLIST 0 ++ u32le fccmovi

theorem write_chain (d : List Nat) (bs : List Nat) :
    Sink.write ⟨d, d.length⟩ bs = ⟨d ++ bs, (d ++ bs).length⟩ := by
  unfold Sink.write writeList
  simp

theorem writeHeaderM_sink (init : List Nat) (descs : List StreamDesc) :
    (writeHeaderM ⟨init, init.length⟩ descs).sink
      = ⟨init ++ headerBytes descs, (init ++ headerBytes descs).length⟩ := by
  simp only [writeHeaderM, headerBytes, hdrlBufOf]
  rw [write_chain, write_chain, write_chain, write_chain, write_chain,
    write_chain, write_chain]
  simp [List.append_assoc]

theorem writeHeaderM_headerPos (init : List Nat) (descs : List StreamDesc) :
    (writeHeaderM ⟨init, init.length⟩ descs).headerPos = init.length := rfl

theorem writeHeaderM_mlp (init : List Nat) (descs : List StreamDesc) :
    (writeHeaderM ⟨init, init.length⟩ descs).moviListPos
      = init.length + 24 + (hdrlBufOf descs).length := by
  simp only [writeHeaderM, hdrlBufOf]
  rw [write_chain, write_chain, write_chain, write_chain, write_chain]
  simp [chunkHeader, u32le]
  omega

theorem headerBytes_length (descs : List StreamDesc) :
    (headerBytes descs).length = 36 + (hdrlBufOf descs).length := by
  simp only [headerBytes, List.length_append, chunkHeader_length, u32le_length]
  omega

theorem hdrlBufOf_ge (descs : List StreamDesc) : 64 ≤ (hdrlBufOf descs).length := by
  unfold hdrlBufOf
  exact hdrlBufBytes_length_ge _ _ _ _ _ _ _ _ _

theorem writeHeaderM_inv (init : List Nat) (descs : List StreamDesc) :
    MuxInv (writeHeaderM ⟨init, init.length⟩ descs) := by
  have hacc := scanDescs_bound descs 0 {} (by simp [ScanAcc]) (by simp [ScanAcc])
    (by simp [ScanAcc]) (by simp [ScanAcc])
  have hs := writeHeaderM_sink init descs
  have hmlp := writeHeaderM_mlp init descs
  have hhl := headerBytes_length descs
  have h64 := hdrlBufOf_ge descs
  refine ⟨?_, ?_, ?_, ?_, ?_, ?_, ?_⟩
  · rw [hs]
  · rw [hmlp, writeHeaderM_headerPos]
    omega
  · rw [hmlp, hs]
    simp only [List.length_append]
    omega
  · exact ⟨by simpa using hacc.1, by simpa using hacc.2.1⟩
  · exact ⟨by simpa using hacc.2.2.1, by simpa using hacc.2.2.2⟩
  · intro _ e he
    simp [writeHeaderM] at he
  · intro _ e he
    simp [writeHeaderM] at he

/-- The frame rate `writeHeaderM` settles on (scan result or the 25
default). -/
def headerFps (descs : List StreamDesc) : Nat :=
  let acc := scanDescs 0 {} descs
  if acc.fps = 0 then 25 else acc.fps

/-- The header bytes following the `totalFrames` placeholder field (the
tail of `MainAVIHeader`, the stream lists and the `movi` LIST opening). -/
def headerPost (descs : List StreamDesc) : List Nat :=
  let acc := scanDescs 0 {} descs
  let fps := if acc.fps = 0 then 25 else acc.fps
  u32le 0 ++ u32le descs.length ++ u32le 1048576 ++ u32le acc.width ++
  u32le acc.height ++ u32le 0 ++ u32le 0 ++ u32le 0 ++ u32le 0 ++
  (if acc.hasVideo then strlBytes (videoStreamBytes fps acc.width acc.height
      (descs.getD acc.videoStreamIdx.toNat default)) else []) ++
  (if acc.hasAudio then strlBytes (audioStreamBytes acc.audioSampleRate
      (descs.getD acc.audioStreamIdx.toNat default)) else []) ++
  chunkHeader fccLIST 0 ++ u32le fccmovi

/-- The placeholder `totalFrames = 0` sits at offset 48 of the emitted
header block: 8 (RIFF header) + 4 (`AVI `) + 8 (LIST header) + 4 (`hdrl`)
+ 8 (`avih` header) + 16 (four `MainAVIHeader` fields) = 48. -/
theorem headerBytes_at48 (descs : List StreamDesc) :
    readU32 (headerBytes descs) 48 = some 0 := by
  have hsplit : headerBytes descs =
      (chunkHeader fccRIFF 0 ++ u32le fccAVI ++
        chunkHeader fccLIST ((hdrlBufOf descs).length + 4) ++ u32le fcchdrl ++
        chunkHeader fccavih 56 ++ u32le (1000000 / headerFps descs) ++
        u32le 0 ++ u32le 0 ++ u32le 16) ++
      (u32le 0 ++ headerPost descs) := by
    simp only [headerBytes, hdrlBufOf, hdrlBufBytes, mainHeaderBytes, headerFps,
      headerPost, List.append_assoc]
  rw [hsplit]
  have hlen : (chunkHeader fccRIFF 0 ++ u32le fccAVI ++
      chunkHeader fccLIST ((hdrlBufOf descs).length + 4) ++ u32le fcchdrl ++
      chunkHeader fccavih 56 ++ u32le (1000000 / headerFps descs) ++
      u32le 0 ++ u32le 0 ++ u32le 16).length = 48 := by
    simp only [List.length_append, chunkHeader_length, u32le_length]
  rw [← hlen]
  have h := readU32_at_end (chunkHeader fccRIFF 0 ++ u32le fccAVI ++
      chunkHeader fccLIST ((hdrlBufOf descs).length + 4) ++ u32le fcchdrl ++
      chunkHeader fccavih 56 ++ u32le (1000000 / headerFps descs) ++
      u32le 0 ++ u32le 0 ++ u32le 16) (headerPost descs) 0
  simpa using h

theorem writePacketChunk_fields (m : Muxer) (pkt : PacketM) (c : Nat) (b : Bool) :
    (writePacketChunk m pkt c b).moviListPos = m.moviListPos ∧
    (writePacketChunk m pkt c b).headerPos = m.headerPos ∧
    (writePacketChunk m pkt c b).videoStreamIdx = m.videoStreamIdx ∧
    (writePacketChunk m pkt c b).audioStreamIdx = m.audioStreamIdx ∧
    (writePacketChunk m pkt c b).descs = m.descs := by
  exact ⟨rfl, rfl, rfl, rfl, rfl⟩

/-- The pad byte written after an odd-length payload. -/
def padOf (n : Nat) : List Nat := if n % 2 = 1 then [0] else []

/-- The bytes one `WritePacket` appends to the sink. -/
def packetBytes (c : Nat) (data : List Nat) : List Nat :=
  chunkHeader c data.length ++ data ++ padOf data.length

theorem writePacketChunk_sink (m : Muxer) (pkt : PacketM) (c : Nat) (b : Bool)
    (h : m.sink.pos = m.sink.data.length) :
    (writePacketChunk m pkt c b).sink.data
        = m.sink.data ++ packetBytes c pkt.data ∧
      (writePacketChunk m pkt c b).sink.pos
        = (writePacketChunk m pkt c b).sink.data.length := by
  obtain ⟨d1, p1⟩ := write_append _ (chunkHeader c pkt.data.length) h
  obtain ⟨d2, p2⟩ := write_append _ pkt.data p1
  by_cases hodd : pkt.data.length % 2 = 1
  · obtain ⟨d3, p3⟩ := write_append _ [0] p2
    simp only [writePacketChunk, packetBytes, padOf, if_pos hodd]
    constructor
    · rw [d3, d2, d1]
      simp [List.append_assoc]
    · rw [p3]
  · simp only [writePacketChunk, packetBytes, padOf, if_neg hodd]
    constructor
    · rw [d2, d1]
      simp [List.append_assoc]
    · rw [p2]

theorem writePacketChunk_entries (m : Muxer) (pkt : PacketM) (c : Nat) (b : Bool) :
    (writePacketChunk m pkt c b).indexEntries = m.indexEntries ++
      [{ chunkID := c, flags := if pkt.isKeyFrame then 16 else 0,
         offset := (m.sink.pos - m.moviListPos - 12) % 4294967296,
         size := pkt.data.length % 4294967296 }] := rfl

/-- `writePacketStep` fully cased out. -/
theorem writePacketStep_eq (m : Muxer) (p : PacketM) :
    writePacketStep m p =
      if p.idx = m.videoStreamIdx then
        writePacketChunk m p (mkChunkID p.idx 100 99) true
      else if p.idx = m.audioStreamIdx then
        writePacketChunk m p (mkChunkID p.idx 119 98) false
      else m := by
  unfold writePacketStep writePacket
  by_cases h1 : p.idx = m.videoStreamIdx
  · simp only [if_pos h1]
  · simp only [if_neg h1]
    by_cases h2 : p.idx = m.audioStreamIdx
    · simp only [if_pos h2]
    · simp only [if_neg h2]



theorem packetBytes_length (c : Nat) (data : List Nat) :
    (packetBytes c data).length = 8 + data.length + (padOf data.length).length := by
  simp [packetBytes, chunkHeader_length, List.length_append]
  omega

/-- Old good entries stay good when the file grows by an append. -/
theorem entryGood_append (d xs : List Nat) (mdp : Nat) (e : IndexEntryM)
    (h : entryGood d mdp e) : entryGood (d ++ xs) mdp e := by
  obtain ⟨h1, h2, h3⟩ := h
  refine ⟨?_, ?_, ?_⟩
  · rw [readU32_append (by omega)]
    exact h1
  · rw [readU32_append (by omega)]
    exact h2
  · simp only [List.length_append]
    omega

/-- The fresh entry recorded by `writePacketChunk` is good in the extended
file, provided the extended file is still under 4 GiB. -/
theorem entryGood_fresh (d : List Nat) (mdp c : Nat) (data : List Nat)
    (flags : Nat) (hmdp : mdp ≤ d.length)
    (hlen : (d ++ packetBytes c data).length < 4294967296) :
    entryGood (d ++ packetBytes c data) mdp
      { chunkID := c, flags := flags, offset := (d.length - mdp) % 4294967296,
        size := data.length % 4294967296 } := by
  have hdlen : d.length < 4294967296 := by
    have := List.length_append d (packetBytes c data)
    omega
  have hoff : (d.length - mdp) % 4294967296 = d.length - mdp :=
    Nat.mod_eq_of_lt (by omega)
  have hdata : data.length % 4294967296 ≤ data.length := Nat.mod_le _ _
  have hpt : mdp + (d.length - mdp) = d.length := by omega
  refine ⟨?_, ?_, ?_⟩
  · show readU32 (d ++ packetBytes c data) (mdp + (d.length - mdp) % 4294967296)
      = some (c % 4294967296)
    rw [hoff, hpt]
    have hshape : d ++ packetBytes c data
        = d ++ (u32le c ++ (u32le data.length ++ (data ++ padOf data.length))) := by
      simp [packetBytes, chunkHeader, List.append_assoc]
    rw [hshape]
    exact readU32_at_end d _ c
  · show readU32 (d ++ packetBytes c data) (mdp + (d.length - mdp) % 4294967296 + 4)
      = some (data.length % 4294967296)
    rw [hoff, hpt]
    have hshape : d ++ packetBytes c data
        = (d ++ u32le c) ++ (u32le data.length ++ (data ++ padOf data.length)) := by
      simp [packetBytes, chunkHeader, List.append_assoc]
    have hl : (d ++ u32le c).length = d.length + 4 := by
      simp [u32le_length]
    rw [hshape, ← hl]
    exact readU32_at_end (d ++ u32le c) _ data.length
  · show mdp + (d.length - mdp) % 4294967296 + 8 + data.length % 4294967296
      ≤ (d ++ packetBytes c data).length
    rw [hoff, hpt]
    rw [List.length_append, packetBytes_length]
    omega

/-- One `WritePacket` call preserves the run invariant. -/
theorem writePacketStep_inv (m : Muxer) (p : PacketM) (h : MuxInv m) :
    MuxInv (writePacketStep m p) := by
  obtain ⟨hpos, h88, h12, hvb, hab, hid, hgood⟩ := h
  rw [writePacketStep_eq]
  have hchunk : ∀ (c : Nat) (b : Bool), (m.descs.length ≤ 100 → c < 4294967296) →
      MuxInv (writePacketChunk m p c b) := by
    intro c b hc
    obtain ⟨hd, hp⟩ := writePacketChunk_sink m p c b hpos
    obtain ⟨f1, f2, f3, f4, f5⟩ := writePacketChunk_fields m p c b
    refine ⟨hp, ?_, ?_, ?_, ?_, ?_, ?_⟩
    · rw [f1, f2]
      exact h88
    · rw [f1, hd, List.length_append]
      omega
    · rw [f3, f5]
      exact hvb
    · rw [f4, f5]
      exact hab
    · rw [f5]
      intro hds e he
      rw [writePacketChunk_entries] at he
      rcases List.mem_append.mp he with hin | hin
      · exact hid hds e hin
      · simp at hin
        rw [hin]
        exact hc hds
    · intro hlen e he
      rw [writePacketChunk_entries] at he
      rw [hd] at hlen ⊢
      have hmono : m.sink.data.length < 4294967296 := by
        have := List.length_append m.sink.data (packetBytes c p.data)
        omega
      rcases List.mem_append.mp he with hin | hin
      · exact entryGood_append _ _ _ _ (hgood hmono e hin)
      · simp at hin
        rw [hin]
        have hmdp : m.moviDataPos ≤ m.sink.data.length := by
          unfold Muxer.moviDataPos
          omega
        have hoffeq : m.sink.pos - m.moviListPos - 12
            = m.sink.data.length - m.moviDataPos := by
          unfold Muxer.moviDataPos
          omega
        show entryGood (m.sink.data ++ packetBytes c p.data) m.moviDataPos _
        rw [hoffeq]
        exact entryGood_fresh m.sink.data m.moviDataPos c p.data _ hmdp hlen
  by_cases h1 : p.idx = m.videoStreamIdx
  · rw [if_pos h1]
    refine hchunk _ _ (fun hds => mkChunkID_lt _ _ _ ?_ ?_ (by omega) (by omega))
    · rw [h1]; exact hvb.1
    · rw [h1]
      have h2 := hvb.2
      omega
  · rw [if_neg h1]
    by_cases h2 : p.idx = m.audioStreamIdx
    · rw [if_pos h2]
      refine hchunk _ _ (fun hds => mkChunkID_lt _ _ _ ?_ ?_ (by omega) (by omega))
      · rw [h2]; exact hab.1
      · rw [h2]
        have h3 := hab.2
        omega
    · rw [if_neg h2]
      exact ⟨hpos, h88, h12, hvb, hab, hid, hgood⟩

theorem writePackets_inv (pkts : List PacketM) : ∀ (m : Muxer), MuxInv m →
    MuxInv (writePackets m pkts) := by
  induction pkts with
  | nil => intro m h; exact h
  | cons p ps ih =>
      intro m h
      exact ih _ (writePacketStep_inv m p h)

theorem writePacketStep_fields (m : Muxer) (p : PacketM) :
    (writePacketStep m p).moviListPos = m.moviListPos ∧
    (writePacketStep m p).headerPos = m.headerPos ∧
    (writePacketStep m p).videoStreamIdx = m.videoStreamIdx ∧
    (writePacketStep m p).audioStreamIdx = m.audioStreamIdx ∧
    (writePacketStep m p).descs = m.descs := by
  rw [writePacketStep_eq]
  by_cases h1 : p.idx = m.videoStreamIdx
  · rw [if_pos h1]
    exact writePacketChunk_fields m p _ _
  · rw [if_neg h1]
    by_cases h2 : p.idx = m.audioStreamIdx
    · rw [if_pos h2]
      exact writePacketChunk_fields m p _ _
    · rw [if_neg h2]
      exact ⟨rfl, rfl, rfl, rfl, rfl⟩

theorem writePackets_fields (pkts : List PacketM) : ∀ (m : Muxer),
    (writePackets m pkts).moviListPos = m.moviListPos ∧
    (writePackets m pkts).headerPos = m.headerPos ∧
    (writePackets m pkts).videoStreamIdx = m.videoStreamIdx ∧
    (writePackets m pkts).audioStreamIdx = m.audioStreamIdx ∧
    (writePackets m pkts).descs = m.descs := by
  induction pkts with
  | nil => intro m; exact ⟨rfl, rfl, rfl, rfl, rfl⟩
  | cons p ps ih =>
      intro m
      obtain ⟨a1, a2, a3, a4, a5⟩ := ih (writePacketStep m p)
      obtain ⟨b1, b2, b3, b4, b5⟩ := writePacketStep_fields m p
      exact ⟨a1.trans b1, a2.trans b2, a3.trans b3, a4.trans b4, a5.trans b5⟩

/-- The number of packets in `ps` whose stream index is `vIdx`. -/
def countVideo (vIdx : Int) : List PacketM → Nat
  | [] => 0
  | p :: ps => (if p.idx = vIdx then 1 else 0) + countVideo vIdx ps

theorem writePacketStep_frameCount (m : Muxer) (p : PacketM) :
    (writePacketStep m p).frameCount
      = m.frameCount + (if p.idx = m.videoStreamIdx then 1 else 0) := by
  rw [writePacketStep_eq]
  by_cases h1 : p.idx = m.videoStreamIdx
  · rw [if_pos h1, if_pos h1]
    rfl
  · rw [if_neg h1, if_neg h1]
    by_cases h2 : p.idx = m.audioStreamIdx
    · rw [if_pos h2]
      rfl
    · rw [if_neg h2]
      rfl

/-- `frameCount` counts exactly the video-stream packets (`WritePacket`
increments it iff the packet's index equals `videoStreamIdx`). -/
theorem writePackets_frameCount (pkts : List PacketM) : ∀ (m : Muxer),
    (writePackets m pkts).frameCount
      = m.frameCount + countVideo m.videoStreamIdx pkts := by
  induction pkts with
  | nil => intro m; rfl
  | cons p ps ih =>
      intro m
      show (writePackets (writePacketStep m p) ps).frameCount = _
      rw [ih (writePacketStep m p), writePacketStep_frameCount,
        (writePacketStep_fields m p).2.2.1]
      have hc : countVideo m.videoStreamIdx (p :: ps)
          = (if p.idx = m.videoStreamIdx then 1 else 0)
            + countVideo m.videoStreamIdx ps := rfl
      rw [hc]
      omega

theorem writePacketStep_data (m : Muxer) (p : PacketM)
    (h : m.sink.pos = m.sink.data.length) :
    (∃ t, (writePacketStep m p).sink.data = m.sink.data ++ t) ∧
      (writePacketStep m p).sink.pos = (writePacketStep m p).sink.data.length := by
  rw [writePacketStep_eq]
  by_cases h1 : p.idx = m.videoStreamIdx
  · rw [if_pos h1]
    obtain ⟨hd, hp⟩ := writePacketChunk_sink m p _ _ h
    exact ⟨⟨_, hd⟩, hp⟩
  · rw [if_neg h1]
    by_cases h2 : p.idx = m.audioStreamIdx
    · rw [if_pos h2]
      obtain ⟨hd, hp⟩ := writePacketChunk_sink m p _ _ h
      exact ⟨⟨_, hd⟩, hp⟩
    · rw [if_neg h2]
      exact ⟨⟨[], by simp⟩, h⟩

/-- `WritePacket` calls only append to the sink. -/
theorem writePackets_data (pkts : List PacketM) : ∀ (m : Muxer),
    m.sink.pos = m.sink.data.length →
    ∃ t, (writePackets m pkts).sink.data = m.sink.data ++ t := by
  induction pkts with
  | nil => intro m _; exact ⟨[], by simp [writePackets]⟩
  | cons p ps ih =>
      intro m h
      obtain ⟨⟨t1, hd1⟩, hp1⟩ := writePacketStep_data m p h
      obtain ⟨t2, hd2⟩ := ih (writePacketStep m p) hp1
      refine ⟨t1 ++ t2, ?_⟩
      show (writePackets (writePacketStep m p) ps).sink.data = _
      rw [hd2, hd1, List.append_assoc]

theorem indexEntriesBytes_length (es : List IndexEntryM) :
    (indexEntriesBytes es).length = 16 * es.length := by
  induction es with
  | nil => rfl
  | cons e es ih =>
      simp only [indexEntriesBytes, List.length_append, u32le_length,
        List.length_cons, ih]
      omega

theorem readU32_append_shift (d l : List Nat) (k : Nat) (h : k + 4 ≤ l.length) :
    readU32 (d ++ l) (d.length + k) = readU32 l k := by
  unfold readU32 readU32val
  rw [List.length_append, if_pos (by omega), if_pos h]
  rw [show d.length + k + 1 = d.length + (k + 1) by omega,
    show d.length + k + 2 = d.length + (k + 2) by omega,
    show d.length + k + 3 = d.length + (k + 3) by omega,
    getD_append_at, getD_append_at, getD_append_at, getD_append_at]

theorem writeTrailer_fields (m : Muxer) :
    (writeTrailer m).indexEntries = m.indexEntries ∧
    (writeTrailer m).moviListPos = m.moviListPos ∧
    (writeTrailer m).headerPos = m.headerPos ∧
    (writeTrailer m).frameCount = m.frameCount := by
  simp [writeTrailer]

/-- WriteTrailer's effect on the sink bytes: append the `idx1` chunk, then
three 4-byte in-place patches. -/
theorem writeTrailer_sink (m : Muxer) (h : m.sink.pos = m.sink.data.length) :
    (writeTrailer m).sink.data
      = writeList (writeList (writeList
          (m.sink.data ++ (chunkHeader fccidx1 (16 * m.indexEntries.length)
            ++ indexEntriesBytes m.indexEntries))
          4 (u32le ((m.sink.data ++ (chunkHeader fccidx1 (16 * m.indexEntries.length)
            ++ indexEntriesBytes m.indexEntries)).length - 8)))
          (m.moviListPos + 4) (u32le (m.dataSize + 4)))
          (m.headerPos + 48) (u32le m.frameCount) := by
  obtain ⟨d1, p1⟩ := write_append _ (chunkHeader fccidx1 (16 * m.indexEntries.length)) h
  obtain ⟨d2, p2⟩ := write_append _ (indexEntriesBytes m.indexEntries) p1
  simp only [writeTrailer, updateU32At]
  rw [p2, d2, d1]
  simp [List.append_assoc]

/-- The trailer's `idx1` append and the three patches leave every recorded
entry readable: all three patch sites end strictly before `moviDataPos`. -/
theorem writeTrailer_entryGood (m : Muxer) (hInv : MuxInv m)
    (hfin : (writeTrailer m).sink.data.length < 4294967296) :
    ∀ e ∈ m.indexEntries, entryGood (writeTrailer m).sink.data m.moviDataPos e := by
  obtain ⟨hpos, h88, h12, _, _, _, hgood⟩ := hInv
  have hT := writeTrailer_sink m hpos
  set A := chunkHeader fccidx1 (16 * m.indexEntries.length)
    ++ indexEntriesBytes m.indexEntries with hA
  have hAlen : A.length = 8 + 16 * m.indexEntries.length := by
    rw [hA, List.length_append, chunkHeader_length, indexEntriesBytes_length]
  have hd2len : (m.sink.data ++ A).length = m.sink.data.length + A.length :=
    List.length_append _ _
  have hb1 : 4 + (u32le ((m.sink.data ++ A).length - 8)).length
      ≤ (m.sink.data ++ A).length := by
    rw [u32le_length]
    omega
  have hb2 : m.moviListPos + 4 + (u32le (m.dataSize + 4)).length
      ≤ (m.sink.data ++ A).length := by
    rw [u32le_length]
    omega
  have hb3 : m.headerPos + 48 + (u32le m.frameCount).length
      ≤ (m.sink.data ++ A).length := by
    rw [u32le_length]
    omega
  have hl1 := writeList_length (d := m.sink.data ++ A)
    (u32le ((m.sink.data ++ A).length - 8)) hb1
  have hl2 := writeList_length (u32le (m.dataSize + 4)) (by rw [hl1]; exact hb2)
  have hl3 := writeList_length (u32le m.frameCount) (by rw [hl2, hl1]; exact hb3)
  have hfinlen : (writeTrailer m).sink.data.length = (m.sink.data ++ A).length := by
    rw [hT, hl3, hl2, hl1]
  have hdlen : m.sink.data.length < 4294967296 := by
    rw [hfinlen] at hfin
    omega
  intro e he
  have hg := hgood hdlen e he
  obtain ⟨hg1, hg2, hg3⟩ := hg
  have hq : m.moviDataPos ≤ m.moviDataPos + e.offset := by omega
  have hq52 : m.headerPos + 48 + 4 ≤ m.moviDataPos + e.offset := by
    unfold Muxer.moviDataPos at hq ⊢
    omega
  have hq8 : m.moviListPos + 4 + 4 ≤ m.moviDataPos + e.offset := by
    unfold Muxer.moviDataPos at hq ⊢
    omega
  have hq4 : 4 + 4 ≤ m.moviDataPos + e.offset := by
    unfold Muxer.moviDataPos at hq ⊢
    omega
  refine ⟨?_, ?_, ?_⟩
  · rw [hT]
    rw [readU32_writeList (by rw [hl2, hl1]; exact hb3)
        (Or.inr (by rw [u32le_length]; omega)),
      readU32_writeList (by rw [hl1]; exact hb2)
        (Or.inr (by rw [u32le_length]; omega)),
      readU32_writeList hb1 (Or.inr (by rw [u32le_length]; omega)),
      readU32_append (by omega)]
    exact hg1
  · rw [hT]
    rw [readU32_writeList (by rw [hl2, hl1]; exact hb3)
        (Or.inr (by rw [u32le_length]; omega)),
      readU32_writeList (by rw [hl1]; exact hb2)
        (Or.inr (by rw [u32le_length]; omega)),
      readU32_writeList hb1 (Or.inr (by rw [u32le_length]; omega)),
      readU32_append (by omega)]
    exact hg2
  · rw [hfinlen]
    omega

-- ## Claim C2

/-- C2: every index entry the muxer emits has its offset taken from the
byte after the `movi` FourCC (`moviDataPos = moviListPos + 12`): in the
finished file, the 8-byte chunk header found at `moviDataPos + offset`
carries exactly the entry's chunk ID and its payload size, and the whole
payload lies inside the file — which is precisely the seek-and-verify
(`readChunkID == entry.ChunkID`) and the payload read that the demuxer's
`ReadPacket` performs, so that call succeeds on every entry.  (The
hypotheses keep the file within the `uint32` index range and the stream
count within the two-digit chunk-ID scheme.) -/
theorem c2_offset_law (init : List Nat) (descs : List StreamDesc)
    (pkts : List PacketM) (hstreams : descs.length ≤ 100)
    (hfin : (muxRun init descs pkts).sink.data.length < 4294967296) :
    ∀ e ∈ (muxRun init descs pkts).indexEntries,
      readU32 (muxRun init descs pkts).sink.data
          ((muxRun init descs pkts).moviDataPos + e.offset) = some e.chunkID ∧
      readU32 (muxRun init descs pkts).sink.data
          ((muxRun init descs pkts).moviDataPos + e.offset + 4) = some e.size ∧
      (muxRun init descs pkts).moviDataPos + e.offset + 8 + e.size
        ≤ (muxRun init descs pkts).sink.data.length := by
  have hinvB := writePackets_inv pkts _ (writeHeaderM_inv init descs)
  have hrun : muxRun init descs pkts
      = writeTrailer (writePackets (writeHeaderM ⟨init, init.length⟩ descs) pkts) :=
    rfl
  set mB := writePackets (writeHeaderM ⟨init, init.length⟩ descs) pkts with hmB
  rw [hrun] at hfin ⊢
  have hfields := writeTrailer_fields mB
  have hmdp : (writeTrailer mB).moviDataPos = mB.moviDataPos := by
    unfold Muxer.moviDataPos
    rw [hfields.2.1]
  rw [hfields.1, hmdp]
  intro e he
  have hdescs : mB.descs.length ≤ 100 := by
    rw [hmB, (writePackets_fields pkts _).2.2.2.2]
    exact hstreams
  have hid : e.chunkID < 4294967296 := hinvB.2.2.2.2.2.1 hdescs e he
  obtain ⟨g1, g2, g3⟩ := writeTrailer_entryGood mB hinvB hfin e he
  refine ⟨?_, g2, g3⟩
  rw [g1, Nat.mod_eq_of_lt hid]

/-- A one-video-stream descriptor (an `h264parser.CodecData` with no SPS,
as the repository's own tests construct). -/
def vDescH264 : StreamDesc := { ctype := CodecTypeM.h264 }

def pktV3 : PacketM := { idx := 0, isKeyFrame := true, data := [1, 2, 3] }

set_option maxRecDepth 100000 in
theorem c2_offset_law_witness :
    (([vDescH264] : List StreamDesc).length ≤ 100 ∧
      (muxRun [] [vDescH264] [pktV3]).sink.data.length < 4294967296) ∧
    ∀ e ∈ (muxRun [] [vDescH264] [pktV3]).indexEntries,
      readU32 (muxRun [] [vDescH264] [pktV3]).sink.data
          ((muxRun [] [vDescH264] [pktV3]).moviDataPos + e.offset) = some e.chunkID ∧
      readU32 (muxRun [] [vDescH264] [pktV3]).sink.data
          ((muxRun [] [vDescH264] [pktV3]).moviDataPos + e.offset + 4) = some e.size ∧
      (muxRun [] [vDescH264] [pktV3]).moviDataPos + e.offset + 8 + e.size
        ≤ (muxRun [] [vDescH264] [pktV3]).sink.data.length :=
  ⟨⟨by decide, by decide⟩,
    c2_offset_law [] [vDescH264] [pktV3] (by decide) (by decide)⟩

-- ## Claim C3

theorem writeHeaderM_frameCount (init : List Nat) (descs : List StreamDesc) :
    (writeHeaderM ⟨init, init.length⟩ descs).frameCount = 0 := rfl

def pktV4 : PacketM := { idx := 0, isKeyFrame := true, data := [1, 2, 3, 4] }

set_option maxRecDepth 100000 in
/-- C3 (counterexample): the spec's arithmetic
`headerPos + 8 + 8 + 8 + 48 = headerPos + 72` does not address the
`totalFrames` field.  In a run with exactly one video `WritePacket`, the
u32 at offset 72 of the finished file is 0 (it is the `avih` width
field), not the video frame count 1 — while the u32 at offset 48 is 1. -/
theorem c3_totalFrames_counterexample :
    countVideo (writeHeaderM ⟨[], 0⟩ [vDescH264]).videoStreamIdx [pktV4] = 1 ∧
    readU32 (muxRun [] [vDescH264] [pktV4]).sink.data
        ((muxRun [] [vDescH264] [pktV4]).headerPos + 8 + 8 + 8 + 48) = some 0 ∧
    readU32 (muxRun [] [vDescH264] [pktV4]).sink.data
        ((muxRun [] [vDescH264] [pktV4]).headerPos + 8 + 8 + 8 + 48) ≠ some 1 := by
  refine ⟨by decide, by decide, ?_⟩
  decide

/-- After `WriteTrailer`, reading the u32 at `headerPos + 48` yields the
patched frame count: the patch there is the last one, and it lies inside
the header region, below `moviListPos`. -/
theorem writeTrailer_at_hp48 (m : Muxer) (hInv : MuxInv m) :
    readU32 (writeTrailer m).sink.data (m.headerPos + 48)
      = some (m.frameCount % 4294967296) := by
  obtain ⟨hpos, h88, h12, _⟩ := hInv
  have hT := writeTrailer_sink m hpos
  set A := chunkHeader fccidx1 (16 * m.indexEntries.length)
    ++ indexEntriesBytes m.indexEntries with hA
  have hAlen : A.length = 8 + 16 * m.indexEntries.length := by
    rw [hA, List.length_append, chunkHeader_length, indexEntriesBytes_length]
  have hd2len : (m.sink.data ++ A).length = m.sink.data.length + A.length :=
    List.length_append _ _
  have hb1 : 4 + (u32le ((m.sink.data ++ A).length - 8)).length
      ≤ (m.sink.data ++ A).length := by
    rw [u32le_length]
    omega
  have hb2 : m.moviListPos + 4 + (u32le (m.dataSize + 4)).length
      ≤ (m.sink.data ++ A).length := by
    rw [u32le_length]
    omega
  have hl1 := writeList_length (u32le ((m.sink.data ++ A).length - 8)) hb1
  have hl2 := writeList_length (u32le (m.dataSize + 4)) (by rw [hl1]; exact hb2)
  have hb3 : m.headerPos + 48 + 4
      ≤ (writeList (writeList (m.sink.data ++ A) 4
          (u32le ((m.sink.data ++ A).length - 8))) (m.moviListPos + 4)
          (u32le (m.dataSize + 4))).length := by
    rw [hl2, hl1]
    omega
  rw [hT, readU32_writeList_at m.frameCount hb3]

set_option maxHeartbeats 1000000 in
/-- C3 (amended): after `WriteTrailer`, the u32 at `headerPos + 48` — the
`totalFrames` field of the emitted `avih`, at 8 (RIFF header) + 4
(`AVI `) + 8 (`hdrl` LIST header) + 4 (`hdrl`) + 8 (`avih` header) + 16
into the `MainAVIHeader` — equals the number of `WritePacket` calls whose
stream index equals the declared video stream index (mod 2^32); before
the trailer that field holds the 0 placeholder.  Audio packets never
contribute: `countVideo` counts only indices equal to `videoStreamIdx`. -/
theorem c3_totalFrames_field (init : List Nat) (descs : List StreamDesc)
    (pkts : List PacketM) :
    readU32 (muxRun init descs pkts).sink.data
        ((muxRun init descs pkts).headerPos + 48)
      = some (countVideo (writeHeaderM ⟨init, init.length⟩ descs).videoStreamIdx
          pkts % 4294967296) ∧
    readU32 (writePackets (writeHeaderM ⟨init, init.length⟩ descs) pkts).sink.data
        ((writeHeaderM ⟨init, init.length⟩ descs).headerPos + 48) = some 0 := by
  have hinv0 := writeHeaderM_inv init descs
  have hinvB := writePackets_inv pkts _ hinv0
  have hfieldsP := writePackets_fields pkts (writeHeaderM ⟨init, init.length⟩ descs)
  have hs := writeHeaderM_sink init descs
  have hsd : (writeHeaderM ⟨init, init.length⟩ descs).sink.data
      = init ++ headerBytes descs := by rw [hs]
  have hhp0 : (writeHeaderM ⟨init, init.length⟩ descs).headerPos = init.length :=
    writeHeaderM_headerPos init descs
  set m0 := writeHeaderM ⟨init, init.length⟩ descs with hm0
  set mB := writePackets m0 pkts with hmB
  have hhpB : mB.headerPos = m0.headerPos := hfieldsP.2.1
  have hmlpB : mB.moviListPos = m0.moviListPos := hfieldsP.1
  have hplace0 : readU32 m0.sink.data (m0.headerPos + 48) = some 0 := by
    have hhp : m0.headerPos = init.length := hhp0
    have h48 : 48 + 4 ≤ (headerBytes descs).length := by
      have hl := headerBytes_length descs
      have hg := hdrlBufOf_ge descs
      omega
    rw [hsd, hhp, readU32_append_shift init (headerBytes descs) 48 h48]
    exact headerBytes_at48 descs
  obtain ⟨t, ht⟩ := writePackets_data pkts m0 hinv0.1
  have hbound : m0.headerPos + 48 + 4 ≤ m0.sink.data.length := by
    have h1 := hinv0.2.1
    have h2 := hinv0.2.2.1
    omega
  have hplaceB : readU32 mB.sink.data (m0.headerPos + 48) = some 0 := by
    rw [hmB, ht, readU32_append hbound]
    exact hplace0
  refine ⟨?_, hplaceB⟩
  have hrun : muxRun init descs pkts = writeTrailer mB := rfl
  rw [hrun, (writeTrailer_fields mB).2.2.1]
  rw [writeTrailer_at_hp48 mB hinvB]
  rw [hmB, writePackets_frameCount pkts m0]
  have hfc0 : m0.frameCount = 0 := by
    rw [hm0]
    exact writeHeaderM_frameCount init descs
  rw [hfc0, Nat.zero_add]

-- ## Claim C4

/-- An H264 descriptor whose extradata (`AVCDecoderConfRecordBytes`) has
odd length — common in practice, since an AVCC record is 11 bytes plus
the SPS and PPS payloads. -/
def vDescH264odd : StreamDesc := { ctype := CodecTypeM.h264, extradata := [1] }

def pktV2 : PacketM := { idx := 0, isKeyFrame := false, data := [1, 2] }

set_option maxRecDepth 100000 in
/-- C4 (code bug): with 1 byte of video extradata the `strf` chunk payload
is 41 bytes and `writeVideoFormat` writes no pad, so the header block has
odd length (225); after one successful `WritePacket` with an even 2-byte
payload the sink length is 235 — odd, violating the alignment invariant
(the demuxer's own parsers skip a pad byte after every odd-sized chunk). -/
theorem c4_odd_extradata_alignment :
    (writeHeaderM ⟨[], 0⟩ [vDescH264odd]).sink.data.length % 2 = 1 ∧
    (writePacket (writeHeaderM ⟨[], 0⟩ [vDescH264odd]) pktV2).toOption.isSome = true ∧
    (writePackets (writeHeaderM ⟨[], 0⟩ [vDescH264odd]) [pktV2]).sink.data.length % 2
      = 1 :=
  ⟨rfl, rfl, rfl⟩

-- ## Claim C5

set_option maxRecDepth 100000 in
/-- C5 (code bug): starting the muxer at sink offset 2 (`headerPos = 2`),
`WriteTrailer` patches the four bytes at absolute offset 4 — not at
`headerPos + 4`, where the RIFF size field actually lives.  In this run
the RIFF size field at `headerPos + 4` still holds the placeholder 0
rather than `currentPos - 8 = 226`, which instead landed at offset 4. -/
theorem c5_riff_size_ignores_headerPos :
    (muxRun [0, 0] [vDescH264] []).headerPos = 2 ∧
    (muxRun [0, 0] [vDescH264] []).sink.data.length = 234 ∧
    readU32 (muxRun [0, 0] [vDescH264] []).sink.data
        ((muxRun [0, 0] [vDescH264] []).headerPos + 4)
      ≠ some ((muxRun [0, 0] [vDescH264] []).sink.data.length - 8) ∧
    readU32 (muxRun [0, 0] [vDescH264] []).sink.data 4
      = some ((muxRun [0, 0] [vDescH264] []).sink.data.length - 8) := by
  refine ⟨rfl, rfl, ?_, rfl⟩
  decide

-- ## Claim C10

/-- The muxer state just before `WriteTrailer` in a run that began at sink
offset 2 and wrote one video packet. -/
def c10mB : Muxer := writePackets (writeHeaderM ⟨[0, 0], 2⟩ [vDescH264]) [pktV4]

set_option maxRecDepth 100000 in
/-- C10 (code bug): in a run with `headerPos = 2`, `WriteTrailer` changes
the byte at absolute offset 4 (the third byte of the `RIFF` FourCC, value
70 = 'F') — a byte lying in none of the three patch fields the claim
names (RIFF size `[headerPos+4, headerPos+8) = [6, 10)`, movi LIST size
`[moviListPos+4, moviListPos+8) = [218, 222)`, avih totalFrames
`[headerPos+48, headerPos+52) = [50, 54)`), because the RIFF-size patch
seeks to absolute offset 4 instead of `headerPos + 4`. -/
theorem c10_trailer_modifies_outside_patch_fields :
    c10mB.headerPos = 2 ∧ c10mB.moviListPos = 214 ∧
    c10mB.sink.data.getD 4 0 = 70 ∧
    (writeTrailer c10mB).sink.data.getD 4 0 = 254 ∧
    (writeTrailer c10mB).sink.data.getD 4 0 ≠ c10mB.sink.data.getD 4 0 := by
  refine ⟨rfl, rfl, rfl, rfl, ?_⟩
  decide

-- ## Claim C1

def fccDC00 : Nat := fourCC 48 48 100 99
def fccWB01 : Nat := fourCC 48 49 119 98

/-- A demuxer state over a two-chunk `movi` area whose `idx1` interleaves
one video entry (`00dc`) and one audio entry (`01wb`); video stream 0 has
`scale = 1, rate = 25`, audio stream 1 has `rate = 8000`. -/
def c1state : DemuxState :=
  { file := chunkHeader fccDC00 2 ++ [9, 9] ++ chunkHeader fccWB01 2 ++ [8, 8],
    moviOffset := 0,
    streamInfos := [{ isVideo := true, isAudio := false, scale := 1, rate := 25 },
                    { isVideo := false, isAudio := true, scale := 0, rate := 8000 }],
    indexEntries := [{ chunkID := fccDC00, flags := 16, offset := 0, size := 2 },
                     { chunkID := fccWB01, flags := 0, offset := 10, size := 2 }],
    currentFrame := 0 }

set_option maxRecDepth 100000 in
/-- C1 (code bug): `ReadPacket` computes timestamps from the single global
`currentFrame` cursor.  On the interleaved index above, the second call
returns the audio stream's FIRST packet (its per-stream position is 0, so
the claim mandates time 0/8000 = 0), yet the packet carries
`1 s * 1 / 8000 = 125000 ns`, because the global cursor value 1 — which
counts the preceding video packet — feeds the audio time formula. -/
theorem c1_global_cursor_timestamp :
    readPacket c1state
      = Except.ok ({ idx := 0, isKeyFrame := true, timeNs := 0, data := [9, 9] },
          { c1state with currentFrame := 1 }) ∧
    readPacket { c1state with currentFrame := 1 }
      = Except.ok ({ idx := 1, isKeyFrame := false, timeNs := 125000, data := [8, 8] },
          { c1state with currentFrame := 2 }) ∧
    (125000 : Nat) ≠ 0 := by
  refine ⟨rfl, rfl, ?_⟩
  decide

-- ## Claim C6

def fccWB00 : Nat := fourCC 48 48 119 98
def fccDC01 : Nat := fourCC 48 49 100 99

/-- A demuxer state whose only stream is video but whose only index entry
carries the audio suffix `wb` (`00wb`): the kind disagrees with the
stream the digits name. -/
def c6state : DemuxState :=
  { file := chunkHeader fccWB00 2 ++ [7, 7],
    moviOffset := 0,
    streamInfos := [{ isVideo := true, isAudio := false, scale := 1, rate := 25 }],
    indexEntries := [{ chunkID := fccWB00, flags := 16, offset := 0, size := 2 }],
    currentFrame := 0 }

set_option maxRecDepth 100000 in
/-- C6 (counterexample): on a `wb` entry naming the (video) stream 0, the
resolution loop finds no match and `ReadPacket` does NOT skip the entry:
it returns a packet attributed to stream 0 — the video stream — with
`isKeyFrame = false` (the key flag 0x10 of the entry is dropped on this
path).  The claimed behavior (skip and advance) would instead return the
next entry or end-of-stream. -/
theorem c6_counterexample :
    c6state.streamInfos.getD 0 default
      = { isVideo := true, isAudio := false, scale := 1, rate := 25 } ∧
    readPacket c6state
      = Except.ok ({ idx := 0, isKeyFrame := false, timeNs := 0, data := [7, 7] },
          { c6state with currentFrame := 1 }) :=
  ⟨rfl, rfl⟩

/-- C6 (amended): when the entry's kind suffix (with its stream digits)
matches no resolved stream, `ReadPacket` does not skip the entry: it
falls back to stream index 0 with `isKeyFrame = false`, still performs
the seek-and-verify at the indexed offset, and returns that chunk's
payload attributed to stream 0. -/
theorem c6_no_match_defaults_to_stream_zero (d : DemuxState)
    (hcur : d.currentFrame < d.indexEntries.length)
    (hres : resolveStream d.streamInfos
        (streamNumOf (d.indexEntries.getD d.currentFrame default).chunkID)
        (fccByte (d.indexEntries.getD d.currentFrame default).chunkID 2)
        (fccByte (d.indexEntries.getD d.currentFrame default).chunkID 3) = none)
    (hhdr : d.moviOffset + (d.indexEntries.getD d.currentFrame default).offset + 8
      ≤ d.file.length)
    (hid : readU32val d.file
        (d.moviOffset + (d.indexEntries.getD d.currentFrame default).offset)
      = (d.indexEntries.getD d.currentFrame default).chunkID)
    (hsz : d.moviOffset + (d.indexEntries.getD d.currentFrame default).offset + 8 +
        readU32val d.file
          (d.moviOffset + (d.indexEntries.getD d.currentFrame default).offset + 4)
      ≤ d.file.length) :
    readPacket d = Except.ok
      ({ idx := 0, isKeyFrame := false,
         timeNs := packetTimeNs (d.streamInfos.getD 0 default) d.currentFrame,
         data := (d.file.drop
             (d.moviOffset + (d.indexEntries.getD d.currentFrame default).offset
               + 8)).take
           (readU32val d.file
             (d.moviOffset + (d.indexEntries.getD d.currentFrame default).offset
               + 4)) },
       { d with currentFrame := d.currentFrame + 1 }) := by
  unfold readPacket
  rw [if_pos hcur]
  simp only [hres, Option.getD, hid]
  rw [if_pos hhdr, if_pos trivial, if_pos hsz]

/-- A second mismatched-entry state (a `dc` suffix naming an audio-only
table) for the amended theorem's witness. -/
def c6wstate : DemuxState :=
  { file := chunkHeader fccDC01 2 ++ [3, 4],
    moviOffset := 0,
    streamInfos := [{ isVideo := false, isAudio := true, scale := 0, rate := 8000 }],
    indexEntries := [{ chunkID := fccDC01, flags := 0, offset := 0, size := 2 }],
    currentFrame := 0 }

set_option maxRecDepth 100000 in
theorem c6_no_match_defaults_to_stream_zero_witness :
    readPacket c6wstate = Except.ok
      ({ idx := 0, isKeyFrame := false,
         timeNs := packetTimeNs (c6wstate.streamInfos.getD 0 default)
           c6wstate.currentFrame,
         data := (c6wstate.file.drop
             (c6wstate.moviOffset
               + (c6wstate.indexEntries.getD c6wstate.currentFrame default).offset
               + 8)).take
           (readU32val c6wstate.file
             (c6wstate.moviOffset
               + (c6wstate.indexEntries.getD c6wstate.currentFrame default).offset
               + 4)) },
       { c6wstate with currentFrame := c6wstate.currentFrame + 1 }) :=
  c6_no_match_defaults_to_stream_zero c6wstate (by decide) (by decide) (by decide)
    (by decide) (by decide)

-- ## Claim C7

/-- C7 (counterexample): a descriptor list with neither a video nor an
audio stream — the empty list — is NOT rejected: `WriteHeader` succeeds
and emits headers declaring zero streams. -/
theorem c7_counterexample :
    (∀ d ∈ ([] : List StreamDesc), d.ctype.isVideoT = false
      ∧ d.ctype.isAudioT = false) ∧
    writeHeader ⟨[], 0⟩ [] = Except.ok (writeHeaderM ⟨[], 0⟩ []) :=
  ⟨by simp, rfl⟩

/-- C7 (amended): `WriteHeader` performs no validation of the descriptor
list: for every sink and every descriptor list — including one with
neither a video nor an audio stream — it returns success (its Go error
paths are all sink failures).  At most one video and one audio stream are
recognized, since a single index field per kind is kept (later
descriptors of a kind overwrite earlier ones). -/
theorem c7_writeHeader_never_rejects (s : Sink) (descs : List StreamDesc) :
    writeHeader s descs = Except.ok (writeHeaderM s descs) := rfl

-- ## Claim C8

def aDescMulaw : StreamDesc := { ctype := CodecTypeM.pcmMulaw }

set_option maxRecDepth 100000 in
/-- C8 (counterexample): for a µ-law stream the muxer's `WaveFormatEx`
carries `channels = 2` — the "Stereo by default" initial value, never
overridden in the G.711 cases — not the claimed 1.  In the emitted file
the audio `strf` payload starts at offset 172 (12 RIFF/AVI + 12 hdrl
LIST + 64 avih + 12 strl LIST + 64 strh + 8 strf header), so the
`channels` u16 sits at offset 174 and reads 2. -/
theorem c8_counterexample :
    (wfxFor (writeHeaderM ⟨[], 0⟩ [aDescMulaw]).audioSampleRate aDescMulaw).1.channels
      = 2 ∧
    readU16 (writeHeaderM ⟨[], 0⟩ [aDescMulaw]).sink.data 172 = some 7 ∧
    readU16 (writeHeaderM ⟨[], 0⟩ [aDescMulaw]).sink.data 174 = some 2 ∧
    readU16 (writeHeaderM ⟨[], 0⟩ [aDescMulaw]).sink.data 174 ≠ some 1 := by
  refine ⟨rfl, rfl, rfl, ?_⟩
  decide

set_option maxRecDepth 100000 in
/-- C8 (amended): for G.711 the muxer emits `WaveFormatEx` with
`formatTag` 0x0007 (µ-law) / 0x0006 (A-law), `samplesPerSec` = the
muxer's audio rate (8000 after `WriteHeader` saw the G.711 descriptor),
`bitsPerSample = 8`, and `channels = 2` (the stereo default, not 1);
for every audio codec `blockAlign = channels * bitsPerSample / 8` and
`avgBytesPerSec = samplesPerSec * blockAlign` in wrapping machine
arithmetic. -/
theorem c8_g711_waveformat (rate sr ch : Nat) (si : Option (Nat × Nat × Nat))
    (ex : List Nat) (s : Sink) (d : StreamDesc) :
    (wfxFor rate ⟨CodecTypeM.pcmMulaw, si, sr, ch, ex⟩).1
      = ⟨7, 2, rate, rate * 2 % 4294967296, 2, 8, 0⟩ ∧
    (wfxFor rate ⟨CodecTypeM.pcmAlaw, si, sr, ch, ex⟩).1
      = ⟨6, 2, rate, rate * 2 % 4294967296, 2, 8, 0⟩ ∧
    (wfxFor rate d).1.blockAlign
      = (wfxFor rate d).1.channels * (wfxFor rate d).1.bitsPerSample % 65536 / 8 ∧
    (wfxFor rate d).1.avgBytesPerSec
      = (wfxFor rate d).1.samplesPerSec * (wfxFor rate d).1.blockAlign
          % 4294967296 ∧
    (writeHeaderM s [⟨CodecTypeM.pcmMulaw, si, sr, ch, ex⟩]).audioSampleRate
      = 8000 ∧
    (writeHeaderM s [⟨CodecTypeM.pcmAlaw, si, sr, ch, ex⟩]).audioSampleRate
      = 8000 := by
  refine ⟨by simp [wfxFor], by simp [wfxFor], ?_, ?_, rfl, rfl⟩
  · rcases d with ⟨ct, dsi, dsr, dch, dex⟩
    rcases ct <;> simp [wfxFor]
  · rcases d with ⟨ct, dsi, dsr, dch, dex⟩
    rcases ct <;> simp [wfxFor]

-- ## Claim C9

/-- C9: a packet whose stream index matches neither the declared video
index nor the declared audio index makes `WritePacket` fail with the
"invalid stream index" error before anything happens: the dispatch is the
first statement of the function, so the muxer state — sink bytes, index
entries, counters — is exactly as before the call. -/
theorem c9_writePacket_out_of_range (m : Muxer) (pkt : PacketM)
    (hv : pkt.idx ≠ m.videoStreamIdx) (ha : pkt.idx ≠ m.audioStreamIdx) :
    writePacket m pkt = Except.error "invalid stream index" ∧
    writePacketStep m pkt = m ∧
    writePackets m [pkt] = m := by
  have h : writePacket m pkt = Except.error "invalid stream index" := by
    unfold writePacket
    rw [if_neg hv, if_neg ha]
  have hstep : writePacketStep m pkt = m := by
    unfold writePacketStep
    rw [h]
  refine ⟨h, hstep, ?_⟩
  show writePackets (writePacketStep m pkt) [] = m
  rw [hstep]
  rfl

def pkt5 : PacketM := { idx := 5, isKeyFrame := false, data := [1] }

set_option maxRecDepth 100000 in
theorem c9_writePacket_out_of_range_witness :
    (pkt5.idx ≠ (writeHeaderM ⟨[], 0⟩ [vDescH264]).videoStreamIdx ∧
      pkt5.idx ≠ (writeHeaderM ⟨[], 0⟩ [vDescH264]).audioStreamIdx) ∧
    (writePacket (writeHeaderM ⟨[], 0⟩ [vDescH264]) pkt5
        = Except.error "invalid stream index" ∧
      writePacketStep (writeHeaderM ⟨[], 0⟩ [vDescH264]) pkt5
        = writeHeaderM ⟨[], 0⟩ [vDescH264] ∧
      writePackets (writeHeaderM ⟨[], 0⟩ [vDescH264]) [pkt5]
        = writeHeaderM ⟨[], 0⟩ [vDescH264]) :=
  ⟨⟨by decide, by decide⟩,
    c9_writePacket_out_of_range (writeHeaderM ⟨[], 0⟩ [vDescH264]) pkt5
      (by decide) (by decide)⟩
